import Mathlib

/-!
Verification of the roster-synchronization core of the mugen-installer
repository (files `mugen-installer.py` and `mugen_manager_v2.py`).

The Python sources are embedded shallowly: every definition below mirrors a
concrete function of the sources, working on explicit values (a roster file is
a list of its lines, the IKEMEN `config.json` is its parsed `Characters`
record list, the file system is an explicit record).  Python strings are
modelled as Lean `String`; `str.strip` / `str.lower` / `str.startswith` /
`str.split` are reimplemented character-by-character below (ASCII semantics,
which covers every string the sources compare against).
-/

namespace MugenInstaller

/-- Whitespace characters stripped by Python `str.strip()` (ASCII range). -/
def isPySpace (c : Char) : Bool :=
  c = ' ' || c = '\t' || c = '\n' || c = '\r' || c = '\x0b' || c = '\x0c'

/-- Python `str.strip()` on a character list: drop whitespace at both ends. -/
def stripList (l : List Char) : List Char :=
  ((l.dropWhile isPySpace).reverse.dropWhile isPySpace).reverse

/-- Python `str.strip()`. -/
def pyStrip (s : String) : String := ⟨stripList s.data⟩

/-- Python `str.lower()` (ASCII letters, which is all the sources compare). -/
def pyLower (s : String) : String := ⟨s.data.map Char.toLower⟩

/-- Python `str.startswith(p)` on character lists. -/
def listStarts : List Char → List Char → Bool
  | _, [] => true
  | [], _ :: _ => false
  | c :: cs, p :: ps => c = p && listStarts cs ps

/-- Python `s.startswith(p)`. -/
def pyStartsWith (s p : String) : Bool := listStarts s.data p.data

/-- Python `s.split(sep)[0]`: the characters before the first separator. -/
def takeBefore (sep : Char) (l : List Char) : List Char :=
  l.takeWhile (fun c => c ≠ sep)

/-- Python `s.split(sep)` for a one-character separator. -/
def splitOnChar (sep : Char) : List Char → List (List Char)
  | [] => [[]]
  | c :: cs =>
    if c = sep then [] :: splitOnChar sep cs
    else
      match splitOnChar sep cs with
      | [] => [[c]]
      | t :: ts => (c :: t) :: ts

/-- Python `s.replace('\\', '/')` as used on IKEMEN `char` paths. -/
def normSlash (s : String) : String :=
  ⟨s.data.map (fun c => if c = '\\' then '/' else c)⟩

/-- `line.split(',')[0].split('\\')[0].strip()` from `read_roster` (MUGEN
branch), applied to the already-stripped line. -/
def mugenToken (line : String) : String :=
  ⟨stripList (takeBefore '\\' (takeBefore ',' line.data))⟩

/-- Python string `<=`: character-wise lexicographic comparison by code
point, as used by `sorted` on the roster entry list. -/
def strLeList : List Char → List Char → Bool
  | [], _ => true
  | _ :: _, [] => false
  | a :: as, b :: bs => if a = b then strLeList as bs else decide (a < b)

/-- Python string `<=` on `String`. -/
def strLe (a b : String) : Bool := strLeList a.data b.data

/-- `sorted(list(set(chars)))` at the end of `read_roster`: exact-equality
deduplication followed by a lexicographic sort. -/
def sortedUniq (l : List String) : List String :=
  l.dedup.insertionSort (fun a b => strLe a b = true)

/-- State transition of the `in_chars_section` flag for one line of the MUGEN
branch of `read_roster` (`mugen_manager_v2.py` lines 66-79). -/
def scanStep (l : String) (inSec : Bool) : Bool :=
  let line := pyStrip l
  if line = "" ∨ pyStartsWith line ";" = true then inSec
  else if pyLower line = "[characters]" then true
  else if pyStartsWith line "[" = true then false
  else inSec

/-- Entry emitted (if any) for one line of the MUGEN branch of
`read_roster`: a line inside the section that is not blank, not a comment and
not a header contributes its first comma/backslash-delimited token. -/
def scanEmit (l : String) (inSec : Bool) : Option String :=
  let line := pyStrip l
  if line = "" ∨ pyStartsWith line ";" = true then none
  else if pyLower line = "[characters]" then none
  else if pyStartsWith line "[" = true then none
  else if inSec then some (mugenToken line) else none

/-- The line scan of the MUGEN branch of `read_roster`. -/
def scanChars : List String → Bool → List String
  | [], _ => []
  | l :: ls, inSec => (scanEmit l inSec).toList ++ scanChars ls (scanStep l inSec)

/-- `read_roster` (MUGEN branch): scan the `select.def` lines, then return
`sorted(list(set(chars)))`. -/
def read_roster_mugen (lines : List String) : List String :=
  sortedUniq (scanChars lines false)

/-- One record of the `Characters` list of the IKEMEN `save/config.json`; the
code reads only its `char` field (`entry.get("char", "")`, absent key
modelled as `""`). -/
structure IkemenEntry where
  char : String
  deriving DecidableEq

/-- The parsed IKEMEN `config.json`, restricted to the `Characters` key, the
only key the code reads or rewrites (the rest of the JSON object is passed
through `json.load`/`json.dump` untouched). -/
structure IkemenConfig where
  characters : List IkemenEntry
  deriving DecidableEq

/-- `char_path.split('/')[1] if char_path.startswith("chars/") and
len(char_path.split('/')) > 1 else None`, applied to the
backslash-normalized `char` path: the guarded folder-name extraction shared
by `read_roster` (IKEMEN branch) and `write_roster_ikemen`. -/
def folderNameOf (charPath : String) : Option String :=
  let p := normSlash charPath
  if pyStartsWith p "chars/" = true ∧ (splitOnChar '/' p.data).length > 1 then
    some ⟨(splitOnChar '/' p.data).getD 1 []⟩
  else none

/-- `read_roster` (IKEMEN branch): collect the folder name of every entry
whose normalized `char` path starts with `chars/`, then return
`sorted(list(set(chars)))`. -/
def read_roster_ikemen (cfg : IkemenConfig) : List String :=
  sortedUniq (cfg.characters.filterMap (fun e => folderNameOf e.char))

/-- The keep test of `write_roster_ikemen`: `folder_name in chars_to_keep`,
where `folder_name` is `None` (never a member) when the `char` path does not
start with `chars/`. -/
def keepEntry (keep : List String) (e : IkemenEntry) : Bool :=
  match folderNameOf e.char with
  | some f => keep.contains f
  | none => false

/-- `write_roster_ikemen`: rebuild the `Characters` list keeping exactly the
entries whose folder name is in `chars_to_keep`, and rewrite the file. -/
def write_roster_ikemen (cfg : IkemenConfig) (keep : List String) : IkemenConfig :=
  ⟨cfg.characters.filter (keepEntry keep)⟩

/-- `add_to_roster_ikemen`: append `{"char": "chars/<folder>/<def_file>"}` to
the `Characters` list. -/
def add_to_roster_ikemen (cfg : IkemenConfig) (folder defFile : String) : IkemenConfig :=
  ⟨cfg.characters ++ [⟨"chars/" ++ folder ++ "/" ++ defFile⟩]⟩

/-- Error propagated out of `read_roster` when `open(roster_path)` raises:
neither branch of `read_roster` guards the `open` call, so a missing file is
an uncaught exception. -/
inductive ReadError
  | fileNotFound
  deriving DecidableEq

/-- `read_roster` on the MUGEN `select.def` path, with the file's presence
made explicit: `none` (missing file) makes `open` raise, and the exception
propagates. -/
def read_roster_mugen_file : Option (List String) → Except ReadError (List String)
  | none => Except.error ReadError.fileNotFound
  | some lines => Except.ok (read_roster_mugen lines)

/-- `read_roster` on the IKEMEN `config.json` path, with the file's presence
made explicit. -/
def read_roster_ikemen_file : Option IkemenConfig → Except ReadError (List String)
  | none => Except.error ReadError.fileNotFound
  | some cfg => Except.ok (read_roster_ikemen cfg)

/-- Outcome of one archive's install step in `add_characters`. -/
inductive InstallOutcome
  | alreadyPresent
  | added
  deriving DecidableEq

/-- The roster-facing part of one iteration of `add_characters`
(`mugen_manager_v2.py` lines 183-201), after the character folder has been
identified: `if char_folder_name in roster:` skip, else install and
`add_to_roster_ikemen`. -/
def installStep (roster : List String) (folder defFile : String)
    (cfg : IkemenConfig) : InstallOutcome × IkemenConfig :=
  if roster.contains folder = true then (InstallOutcome.alreadyPresent, cfg)
  else (InstallOutcome.added, add_to_roster_ikemen cfg folder defFile)

/-- The on-disk state touched by `delete_character` under the MUGEN engine:
the `select.def` lines and the set of character folders. -/
structure MugenState where
  selectDef : List String
  folders : List String
  deriving DecidableEq

/-- `delete_character` with `engine_type = "MUGEN"`: a cancelled prompt
(choice 0, out of range, or unconfirmed) leaves everything unchanged;
otherwise the chosen folder is deleted, and — the engine not being IKEMEN —
`write_roster_ikemen` is never called, so `select.def` is not rewritten. -/
def delete_character_mugen (st : MugenState) (choice : Nat) (confirm : Bool) :
    MugenState :=
  let roster := read_roster_mugen st.selectDef
  if choice = 0 ∨ roster.length < choice ∨ confirm = false then st
  else
    let char := roster.getD (choice - 1) ""
    { st with folders := st.folders.erase char }

/-- Result of `add_char_to_select_def`: `True` with the "already present"
message, `True` after a successful rewrite, or `False` when the
`[Characters]` section is missing. -/
inductive AddOutcome
  | alreadyPresent
  | updated
  | sectionNotFound
  deriving DecidableEq

/-- The insertion scan of `add_char_to_select_def` (`mugen-installer.py`
lines 109-129): stream the lines, and at the end of the `[Characters]`
section (next header, or EOF while still inside it) insert `char_name` once.
Returns the rebuilt lines and the `inserted` flag. -/
def insertChar (name : String) : List String → Bool → Bool → List String × Bool
  | [], inSec, inserted =>
    if inSec = true ∧ inserted = false then ([name ++ "\n"], true)
    else ([], inserted)
  | l :: ls, inSec, inserted =>
    if pyLower (pyStrip l) = "[characters]" then
      let r := insertChar name ls true inserted
      (l :: r.1, r.2)
    else if inSec = true ∧ pyStartsWith (pyStrip l) "[" = true then
      let r := insertChar name ls false true
      (if inserted = true then l :: r.1 else (name ++ "\n") :: l :: r.1, r.2)
    else
      let r := insertChar name ls inSec inserted
      (l :: r.1, r.2)

/-- `add_char_to_select_def`: if some line already starts (case-insensitively)
with the character name, report it present and leave the file alone; else run
the insertion scan and rewrite the file only when an insertion happened,
reporting the missing `[Characters]` section otherwise.  The returned line
list is the on-disk content after the call. -/
def add_char_to_select_def (lines : List String) (name : String) :
    AddOutcome × List String :=
  if lines.any (fun l => pyStartsWith (pyLower (pyStrip l)) (pyLower name)) = true then
    (AddOutcome.alreadyPresent, lines)
  else
    let r := insertChar name lines false false
    if r.2 = true then (AddOutcome.updated, r.1)
    else (AddOutcome.sectionNotFound, lines)

/-- File-system view of a mutating IKEMEN operation: the roster file
(`save/config.json`) and the set of backup snapshots present on disk.  The
sources contain no backup logic at all: `write_roster_ikemen` opens and
rewrites only `roster_path`, so the backup component is never touched. -/
structure IkemenFs where
  rosterFile : IkemenConfig
  backupFiles : List IkemenConfig
  deriving DecidableEq

/-- `write_roster_ikemen` as a transition on the file system: the roster file
is rewritten in place; no backup file is read, created or verified. -/
def write_roster_ikemen_fs (fs : IkemenFs) (keep : List String) : IkemenFs :=
  { rosterFile := write_roster_ikemen fs.rosterFile keep
    backupFiles := fs.backupFiles }

/-- File-system view of `add_char_to_select_def`: the `select.def` lines and
the backup snapshots present on disk (none are ever created). -/
structure MugenFs where
  selectDefFile : List String
  backupFiles : List (List String)
  deriving DecidableEq

/-- `add_char_to_select_def` as a transition on the file system: the only
file opened is `select.def` itself. -/
def add_char_fs (fs : MugenFs) (name : String) : AddOutcome × MugenFs :=
  ((add_char_to_select_def fs.selectDefFile name).1,
   { selectDefFile := (add_char_to_select_def fs.selectDefFile name).2
     backupFiles := fs.backupFiles })

/-- Modelled from the spec (§4.1, no counterpart exists in the sources):
`normalize(entry) -> canonical_key` — lowercase, backslashes to forward
slashes, first path segment.  Used only to state the claims about
normalized-key matching. -/
def specNormalizeKey (s : String) : String :=
  ⟨takeBefore '/' (normSlash (pyLower s)).data⟩

/-- A `select.def` line whose stripped content is the `randomselect`
sentinel.  Used only to state the sentinel-counting claims. -/
def isSentLine (l : String) : Bool := pyStrip l = "randomselect"

/-- Number of `randomselect` lines in a `select.def` line list. -/
def countSent (lines : List String) : Nat := lines.countP isSentLine

/-! General lemmas about the embedded operations. -/

/-- The executable comparison `strLeList` agrees with the lexicographic order
on character lists. -/
theorem strLeList_iff_lex :
    ∀ as bs : List Char, strLeList as bs = true ↔ as = bs ∨ List.Lex (· < ·) as bs
  | [], [] => iff_of_true rfl (Or.inl rfl)
  | [], b :: bs => iff_of_true rfl (Or.inr List.Lex.nil)
  | a :: as, [] => by
    constructor
    · intro h
      exact Bool.noConfusion h
    · rintro (h | h)
      · exact List.noConfusion h
      · cases h
  | a :: as, b :: bs => by
    by_cases hab : a = b
    · subst hab
      show (if a = a then strLeList as bs else decide (a < a)) = true ↔ _
      rw [if_pos rfl, strLeList_iff_lex as bs]
      constructor
      · rintro (h | h)
        · exact Or.inl (by rw [h])
        · exact Or.inr (List.Lex.cons h)
      · rintro (h | h)
        · refine Or.inl ?_
          injection h
        · cases h with
          | cons h => exact Or.inr h
          | rel h => exact absurd h (lt_irrefl a)
    · show (if a = b then strLeList as bs else decide (a < b)) = true ↔ _
      rw [if_neg hab]
      simp only [decide_eq_true_eq]
      constructor
      · intro h
        exact Or.inr (List.Lex.rel h)
      · rintro (h | h)
        · injection h with h1 h2
          exact absurd h1 hab
        · cases h with
          | cons h => exact absurd rfl hab
          | rel h => exact h

/-- The executable comparison `strLe` agrees with the lexicographic order on
strings. -/
theorem strLe_iff {a b : String} : strLe a b = true ↔ a ≤ b := by
  rw [String.le_iff_toList_le, le_iff_lt_or_eq, or_comm]
  exact strLeList_iff_lex a.data b.data

instance : IsTrans String (fun a b => strLe a b = true) :=
  ⟨fun _ _ _ h1 h2 => strLe_iff.mpr (le_trans (strLe_iff.mp h1) (strLe_iff.mp h2))⟩

instance : IsTotal String (fun a b => strLe a b = true) :=
  ⟨fun a b => (le_total a b).imp strLe_iff.mpr strLe_iff.mpr⟩

/-- `sorted(list(set(l)))` is sorted for the lexicographic order. -/
theorem sortedUniq_sorted (l : List String) : (sortedUniq l).Sorted (· ≤ ·) :=
  (List.sorted_insertionSort (fun a b => strLe a b = true) l.dedup).imp
    (fun h => strLe_iff.mp h)

/-- `sorted(list(set(l)))` has no exact duplicates. -/
theorem sortedUniq_nodup (l : List String) : (sortedUniq l).Nodup :=
  (List.perm_insertionSort _ _).nodup_iff.mpr (List.nodup_dedup l)

/-- Membership in `sorted(list(set(l)))` is membership in `l`. -/
theorem mem_sortedUniq {a : String} {l : List String} :
    a ∈ sortedUniq l ↔ a ∈ l :=
  (List.perm_insertionSort _ _).mem_iff.trans List.mem_dedup

/-- A line that strips to nothing leaves the section flag unchanged. -/
theorem scanStep_blank {l : String} (h : pyStrip l = "") (inSec : Bool) :
    scanStep l inSec = inSec := by
  simp [scanStep, h]

/-- A line that strips to nothing contributes no entry. -/
theorem scanEmit_blank {l : String} (h : pyStrip l = "") (inSec : Bool) :
    scanEmit l inSec = none := by
  simp [scanEmit, h]

/-- Deleting a blank line anywhere does not change the scanned entries. -/
theorem scanChars_blank (b : String) (h : pyStrip b = "") :
    ∀ (pre post : List String) (inSec : Bool),
      scanChars (pre ++ b :: post) inSec = scanChars (pre ++ post) inSec
  | [], post, inSec => by
    simp [scanChars, scanEmit_blank h, scanStep_blank h]
  | p :: pre, post, inSec => by
    show scanChars (p :: (pre ++ b :: post)) inSec = scanChars (p :: (pre ++ post)) inSec
    simp only [scanChars]
    rw [scanChars_blank b h pre post]

/-- `splitOnChar` never returns the empty list. -/
theorem splitOnChar_ne_nil (sep : Char) (l : List Char) : splitOnChar sep l ≠ [] := by
  cases l with
  | nil => simp [splitOnChar]
  | cons c cs =>
    simp only [splitOnChar]
    split
    · exact List.cons_ne_nil _ _
    · rcases h : splitOnChar sep cs with _ | ⟨t, ts⟩ <;> simp

/-- `listStarts l p` holds exactly when `p` is a prefix of `l`. -/
theorem listStarts_iff : ∀ l p : List Char, listStarts l p = true ↔ ∃ r, l = p ++ r
  | l, [] => by simp [listStarts]
  | [], p :: ps => by simp [listStarts]
  | c :: cs, p :: ps => by
    simp only [listStarts, Bool.and_eq_true, decide_eq_true_eq]
    rw [listStarts_iff cs ps]
    constructor
    · rintro ⟨hc, r, hr⟩
      exact ⟨r, by simp [hc, hr]⟩
    · rintro ⟨r, hr⟩
      injection hr with h1 h2
      exact ⟨h1, r, h2⟩

/-- Splitting a list that begins with `chars/` peels off that first segment. -/
theorem splitOnChar_chars (r : List Char) :
    splitOnChar '/' ('c' :: 'h' :: 'a' :: 'r' :: 's' :: '/' :: r) =
      ['c', 'h', 'a', 'r', 's'] :: splitOnChar '/' r := by
  have hr := splitOnChar_ne_nil '/' r
  simp only [splitOnChar, reduceIte]
  rcases h : splitOnChar '/' r with _ | ⟨t, ts⟩
  · exact absurd h hr
  · simp

/-- A path that starts with `chars/` splits into at least two segments. -/
theorem one_lt_length_split {p : String} (h : pyStartsWith p "chars/" = true) :
    1 < (splitOnChar '/' p.data).length := by
  rcases (listStarts_iff p.data ("chars/".data)).mp h with ⟨r, hr⟩
  have h2 : 0 < (splitOnChar '/' r).length :=
    List.length_pos.mpr (splitOnChar_ne_nil '/' r)
  rw [hr]
  show 1 < (splitOnChar '/' ('c' :: 'h' :: 'a' :: 'r' :: 's' :: '/' :: r)).length
  rw [splitOnChar_chars]
  simp only [List.length_cons]
  omega

/-- The keep test of `write_roster_ikemen`, characterized: an entry is kept
exactly when its normalized `char` path starts with `chars/` and its second
path segment is in the keep list. -/
theorem keepEntry_iff (keep : List String) (e : IkemenEntry) :
    keepEntry keep e = true ↔
      pyStartsWith (normSlash e.char) "chars/" = true ∧
        String.mk ((splitOnChar '/' (normSlash e.char).data).getD 1 []) ∈ keep := by
  by_cases hc : pyStartsWith (normSlash e.char) "chars/" = true ∧
      (splitOnChar '/' (normSlash e.char).data).length > 1
  · simp only [keepEntry, folderNameOf]
    rw [if_pos hc]
    constructor
    · intro h
      exact ⟨hc.1, List.elem_iff.mp h⟩
    · rintro ⟨h1, h2⟩
      exact List.elem_iff.mpr h2
  · simp only [keepEntry, folderNameOf]
    rw [if_neg hc]
    refine iff_of_false (fun h => Bool.noConfusion h) ?_
    rintro ⟨h1, h2⟩
    exact hc ⟨h1, one_lt_length_split h1⟩

/-- Without a `[Characters]` header, the insertion scan started outside the
section copies the lines unchanged and never inserts. -/
theorem insertChar_no_header (name : String) :
    ∀ (ls : List String) (inserted : Bool),
      (∀ l ∈ ls, pyLower (pyStrip l) ≠ "[characters]") →
      insertChar name ls false inserted = (ls, inserted)
  | [], inserted, _ => by
    simp [insertChar]
  | l :: ls, inserted, h => by
    have h1 : pyLower (pyStrip l) ≠ "[characters]" := h l (List.mem_cons_self l ls)
    have h2 : ∀ x ∈ ls, pyLower (pyStrip x) ≠ "[characters]" :=
      fun x hx => h x (List.mem_cons_of_mem l hx)
    simp only [insertChar, if_neg h1, Bool.false_eq_true, false_and, if_false]
    rw [insertChar_no_header name ls inserted h2]

/-- The insertion scan changes the number of `randomselect` lines by nothing
when the inserted line is not itself a `randomselect` line. -/
theorem countSent_insertChar {name : String} (hs : isSentLine (name ++ "\n") = false) :
    ∀ (ls : List String) (inSec inserted : Bool),
      countSent (insertChar name ls inSec inserted).1 = countSent ls
  | [], inSec, inserted => by
    simp only [insertChar]
    split
    · simp [countSent, List.countP_cons, hs]
    · rfl
  | l :: ls, inSec, inserted => by
    have ih1 := countSent_insertChar hs ls true inserted
    have ih2 := countSent_insertChar hs ls false true
    have ih3 := countSent_insertChar hs ls inSec inserted
    simp only [countSent] at ih1 ih2 ih3 ⊢
    simp only [insertChar]
    split
    · simp [List.countP_cons, ih1]
    · split
      · split
        · simp [List.countP_cons, ih2]
        · simp [List.countP_cons, ih2, hs]
      · simp [List.countP_cons, ih3]

/-- The default-valued index access used for the menu choice stays inside the
list. -/
theorem getD_mem_of_lt {l : List String} {n : Nat} (h : n < l.length) :
    l.getD n "" ∈ l := by
  simp only [List.getD_eq_getElem?_getD, List.getElem?_eq_getElem h, Option.getD_some]
  exact List.getElem_mem h

/-! Claims. -/

/-- Claim C1, counterexample: `write_roster_ikemen` (the roster write of the
delete and replace operations) changes the roster file while the set of
backup files on disk is and stays empty, so no timestamped backup is created
and verified present before the write. -/
theorem write_without_backup_cex :
    (write_roster_ikemen_fs ⟨⟨[⟨"chars/KFM/kfm.def"⟩]⟩, []⟩ []).rosterFile ≠
        (⟨⟨[⟨"chars/KFM/kfm.def"⟩]⟩, []⟩ : IkemenFs).rosterFile ∧
      (write_roster_ikemen_fs ⟨⟨[⟨"chars/KFM/kfm.def"⟩]⟩, []⟩ []).backupFiles = [] := by
  decide

/-- Claim C1 (amended): no backup is ever created — the sources contain no
backup logic, and both mutating roster writes (`write_roster_ikemen`, used by
delete and replace, and `add_char_to_select_def`, used by the installer's
add) leave the backup files on disk exactly as they were, for every state and
argument. -/
theorem mutating_ops_leave_backups_unchanged :
    (∀ (fs : IkemenFs) (keep : List String),
        (write_roster_ikemen_fs fs keep).backupFiles = fs.backupFiles) ∧
      ∀ (fs : MugenFs) (name : String),
        (add_char_fs fs name).2.backupFiles = fs.backupFiles :=
  ⟨fun _ _ => rfl, fun _ _ => rfl⟩

/-- Claim C2, counterexample: with `RYU` in the roster, the discovered entry
`Ryu` — whose normalized key equals `RYU`'s — is classified `added`, not
`already_present`, and is appended to the roster by `add_characters`. -/
theorem case_variant_added_cex :
    (installStep (read_roster_ikemen ⟨[⟨"chars/RYU/ryu.def"⟩]⟩) "Ryu" "ryu.def"
        ⟨[⟨"chars/RYU/ryu.def"⟩]⟩).1 = InstallOutcome.added ∧
      specNormalizeKey "Ryu" = specNormalizeKey "RYU" ∧
      (installStep (read_roster_ikemen ⟨[⟨"chars/RYU/ryu.def"⟩]⟩) "Ryu" "ryu.def"
          ⟨[⟨"chars/RYU/ryu.def"⟩]⟩).2.characters =
        [⟨"chars/RYU/ryu.def"⟩, ⟨"chars/Ryu/ryu.def"⟩] := by
  decide

/-- Claim C2 (amended): the duplicate check of `add_characters` is exact,
case-sensitive membership of the discovered folder name in the roster list —
`already_present` is reported for exact matches only, so a case-variant is
installed and appended; the MUGEN installer's `add_char_to_select_def`
instead skips (without writing) whenever some line starts,
case-insensitively, with the character name. -/
theorem duplicate_checks_characterized :
    (∀ (roster : List String) (folder defFile : String) (cfg : IkemenConfig),
        (installStep roster folder defFile cfg).1 = InstallOutcome.alreadyPresent ↔
          folder ∈ roster) ∧
      ∀ (lines : List String) (name : String),
        (∃ l ∈ lines, pyStartsWith (pyLower (pyStrip l)) (pyLower name) = true) →
        add_char_to_select_def lines name = (AddOutcome.alreadyPresent, lines) := by
  constructor
  · intro roster folder defFile cfg
    by_cases hc : roster.contains folder = true
    · rw [installStep, if_pos hc]
      exact iff_of_true rfl (List.elem_iff.mp hc)
    · rw [installStep, if_neg hc]
      exact iff_of_false (fun h => InstallOutcome.noConfusion h)
        (fun hm => hc (List.elem_iff.mpr hm))
  · intro lines name hex
    rw [add_char_to_select_def, if_pos (List.any_eq_true.mpr hex)]

/-- Claim C2 (amended), witness at concrete inputs. -/
theorem duplicate_checks_characterized_witness :
    (installStep ["RYU"] "RYU" "ryu.def" ⟨[]⟩).1 = InstallOutcome.alreadyPresent ∧
      add_char_to_select_def ["kfm, stages/kfm.def\n"] "KFM" =
        (AddOutcome.alreadyPresent, ["kfm, stages/kfm.def\n"]) :=
  ⟨(duplicate_checks_characterized.1 ["RYU"] "RYU" "ryu.def" ⟨[]⟩).mpr (by decide),
   duplicate_checks_characterized.2 ["kfm, stages/kfm.def\n"] "KFM"
     ⟨"kfm, stages/kfm.def\n", by decide, by decide⟩⟩

/-- Claim C3, counterexample: `read_roster` keeps both `Ryu` and `RYU`, two
entries equal after case-insensitive normalization — deduplication by
`set()` is exact, not case-insensitive. -/
theorem case_insensitive_dedup_cex :
    read_roster_mugen ["[Characters]\n", "Ryu\n", "RYU\n"] = ["RYU", "Ryu"] ∧
      pyLower "RYU" = pyLower "Ryu" ∧ ("RYU" : String) ≠ "Ryu" := by
  decide

/-- Claim C3 (amended): for every input, both branches of `read_roster`
return a list sorted in lexicographic order and without exact (case-
sensitive) duplicates. -/
theorem read_roster_sorted_nodup (lines : List String) (cfg : IkemenConfig) :
    (read_roster_mugen lines).Sorted (· ≤ ·) ∧ (read_roster_mugen lines).Nodup ∧
      (read_roster_ikemen cfg).Sorted (· ≤ ·) ∧ (read_roster_ikemen cfg).Nodup :=
  ⟨sortedUniq_sorted _, sortedUniq_nodup _, sortedUniq_sorted _, sortedUniq_nodup _⟩

/-- Claim C4, counterexample: `add_char_to_select_def` inserts the new
character at the end of the `Characters` section, after the existing
`randomselect` line, so after the rewrite the `randomselect` line is not
positioned after every character entry of the section. -/
theorem sentinel_position_cex :
    add_char_to_select_def ["[Characters]\n", "kfm\n", "randomselect\n", "[ExtraStages]\n"] "Ryu" =
      (AddOutcome.updated,
        ["[Characters]\n", "kfm\n", "randomselect\n", "Ryu\n", "[ExtraStages]\n"]) ∧
      List.indexOf "randomselect\n"
          ["[Characters]\n", "kfm\n", "randomselect\n", "Ryu\n", "[ExtraStages]\n"] <
        List.indexOf "Ryu\n"
          ["[Characters]\n", "kfm\n", "randomselect\n", "Ryu\n", "[ExtraStages]\n"] := by
  decide

/-- Claim C4 (amended): `add_char_to_select_def` never touches the
`randomselect` sentinel; it only inserts the one new character line, so the
number of `randomselect` lines in the file is exactly preserved (whenever the
inserted name is not itself `randomselect`), but their position relative to
the inserted entry is not adjusted. -/
theorem sentinel_count_preserved (lines : List String) (name : String)
    (hs : isSentLine (name ++ "\n") = false) :
    countSent (add_char_to_select_def lines name).2 = countSent lines := by
  simp only [add_char_to_select_def]
  split
  · rfl
  · split
    · exact countSent_insertChar hs lines false false
    · rfl

/-- Claim C4 (amended), witness at a concrete input. -/
theorem sentinel_count_preserved_witness :
    countSent ( add_char_to_select_def ["[Characters]\n", "kfm\n", "randomselect\n", "[ExtraStages]\n"] "Ryu").2 =
      countSent ["[Characters]\n", "kfm\n", "randomselect\n", "[ExtraStages]\n"] :=
  sentinel_count_preserved ["[Characters]\n", "kfm\n", "randomselect\n", "[ExtraStages]\n"]
    "Ryu" (by decide)

/-- Claim C5, counterexample: with a roster containing no `[Characters]`
header at all, adding `kfm` does not fail with a section-not-found error —
the case-insensitive prefix check fires first and the call reports the
character as already present. -/
theorem section_not_found_masked_cex :
    add_char_to_select_def ["kfm\n"] "kfm" = (AddOutcome.alreadyPresent, ["kfm\n"]) ∧
      (∀ l ∈ (["kfm\n"] : List String), pyLower (pyStrip l) ≠ "[characters]") ∧
      AddOutcome.alreadyPresent ≠ AddOutcome.sectionNotFound := by
  decide

/-- Claim C5 (amended): when the `[Characters]` header is absent from the
lines and the entry is not caught by the already-present prefix check, the
write fails with the section-not-found outcome; and whenever the header is
absent the on-disk content after the call equals the content before it. -/
theorem missing_section_aborts_unchanged :
    (∀ (lines : List String) (name : String),
        (∀ l ∈ lines, pyLower (pyStrip l) ≠ "[characters]") →
        (∀ l ∈ lines, pyStartsWith (pyLower (pyStrip l)) (pyLower name) = false) →
        add_char_to_select_def lines name = (AddOutcome.sectionNotFound, lines)) ∧
      ∀ (lines : List String) (name : String),
        (∀ l ∈ lines, pyLower (pyStrip l) ≠ "[characters]") →
        (add_char_to_select_def lines name).2 = lines := by
  constructor
  · intro lines name hH hP
    have ha : lines.any (fun l => pyStartsWith (pyLower (pyStrip l)) (pyLower name)) = false :=
      List.any_eq_false.mpr (fun l hl => by simp [hP l hl])
    simp only [add_char_to_select_def, ha, Bool.false_eq_true, if_false,
      insertChar_no_header name lines false hH]
  · intro lines name hH
    by_cases ha : lines.any (fun l => pyStartsWith (pyLower (pyStrip l)) (pyLower name)) = true
    · simp [add_char_to_select_def, ha]
    · simp only [add_char_to_select_def, if_neg ha,
        insertChar_no_header name lines false hH, Bool.false_eq_true, if_false]

/-- Claim C5 (amended), witness at a concrete input. -/
theorem missing_section_aborts_unchanged_witness :
    add_char_to_select_def ["stages\n"] "kfm" = (AddOutcome.sectionNotFound, ["stages\n"]) :=
  missing_section_aborts_unchanged.1 ["stages\n"] "kfm" (by decide) (by decide)

/-- Claim C6, counterexample: a blank line inside the `[Characters]` section
does not end the section body — `ryu`, which appears only after the blank
line, is still returned by `read_roster`. -/
theorem blank_line_continues_section_cex :
    read_roster_mugen ["[Characters]\n", "kfm\n", "\n", "ryu\n"] = ["kfm", "ryu"] ∧
      "ryu" ∈ read_roster_mugen ["[Characters]\n", "kfm\n", "\n", "ryu\n"] := by
  decide

/-- Claim C6 (amended): blank lines are simply skipped by the `read_roster`
scan — deleting a blank line anywhere leaves the result unchanged, so a blank
line never ends the section body. -/
theorem blank_lines_skipped (pre post : List String) (b : String)
    (h : pyStrip b = "") :
    read_roster_mugen (pre ++ b :: post) = read_roster_mugen (pre ++ post) := by
  simp only [read_roster_mugen]
  rw [scanChars_blank b h pre post]

/-- Claim C6 (amended), witness at a concrete input. -/
theorem blank_lines_skipped_witness :
    read_roster_mugen (["[Characters]\n", "kfm\n"] ++ "\n" :: ["ryu\n"]) =
      read_roster_mugen (["[Characters]\n", "kfm\n"] ++ ["ryu\n"]) :=
  blank_lines_skipped ["[Characters]\n", "kfm\n"] ["ryu\n"] "\n" (by decide)

/-- Claim C7, counterexample: `read_roster` filters nothing — the sentinel
line `randomselect` is returned as an entry, and the line `,x` contributes
the empty token. -/
theorem sentinel_and_empty_kept_cex :
    read_roster_mugen ["[Characters]\n", "randomselect\n", ",x\n"] =
        ["", "randomselect"] ∧
      "randomselect" ∈ read_roster_mugen ["[Characters]\n", "randomselect\n", ",x\n"] ∧
      "" ∈ read_roster_mugen ["[Characters]\n", "randomselect\n", ",x\n"] := by
  decide

/-- Claim C7 (amended): every in-section line that is not blank, not a
comment and not a header contributes its first token to the result of
`read_roster`, with no sentinel or empty-token filtering. -/
theorem section_lines_unfiltered (l : String)
    (h1 : pyStrip l ≠ "") (h2 : pyStartsWith (pyStrip l) ";" = false)
    (h3 : pyLower (pyStrip l) ≠ "[characters]")
    (h4 : pyStartsWith (pyStrip l) "[" = false) :
    mugenToken (pyStrip l) ∈ read_roster_mugen ["[Characters]\n", l] := by
  have hstep : scanStep "[Characters]\n" false = true := by decide
  have hemit : scanEmit "[Characters]\n" false = none := by decide
  have hl : scanEmit l true = some (mugenToken (pyStrip l)) := by
    simp [scanEmit, h1, h2, h3, h4]
  simp only [read_roster_mugen]
  rw [mem_sortedUniq]
  simp [scanChars, hstep, hemit, hl]

/-- Claim C7 (amended), witness: the sentinel line itself is returned. -/
theorem section_lines_unfiltered_witness :
    mugenToken (pyStrip "randomselect\n") ∈
      read_roster_mugen ["[Characters]\n", "randomselect\n"] :=
  section_lines_unfiltered "randomselect\n" (by decide) (by decide) (by decide) (by decide)

/-- Claim C8, counterexample: a missing roster file is not recovered into an
empty entry set — `read_roster` propagates the file-not-found error instead
of returning `ok []`. -/
theorem missing_file_raises_cex :
    read_roster_mugen_file none = Except.error ReadError.fileNotFound ∧
      read_roster_mugen_file none ≠ Except.ok [] :=
  ⟨rfl, fun h => Except.noConfusion h⟩

/-- Claim C8 (amended): on a missing roster file, both engine branches of
`read_roster` fail with the propagated file-not-found error; no empty result
is produced and the operation does not proceed. -/
theorem missing_file_is_error :
    read_roster_mugen_file none = Except.error ReadError.fileNotFound ∧
      read_roster_ikemen_file none = Except.error ReadError.fileNotFound :=
  ⟨rfl, rfl⟩

/-- Claim C9: under the MUGEN engine, a confirmed, in-range delete leaves
`select.def` byte-for-byte unchanged, removes exactly the chosen character's
folder, and the deleted character is still listed by a fresh parse of the
roster file. -/
theorem mugen_delete_preserves_select_def (st : MugenState) (choice : Nat)
    (h1 : 1 ≤ choice) (h2 : choice ≤ (read_roster_mugen st.selectDef).length) :
    (delete_character_mugen st choice true).selectDef = st.selectDef ∧
      (delete_character_mugen st choice true).folders =
        st.folders.erase ((read_roster_mugen st.selectDef).getD (choice - 1) "") ∧
      (read_roster_mugen st.selectDef).getD (choice - 1) "" ∈
        read_roster_mugen (delete_character_mugen st choice true).selectDef := by
  have hg : ¬(choice = 0 ∨ (read_roster_mugen st.selectDef).length < choice ∨
      true = false) := by
    push_neg
    refine ⟨by omega, by omega, fun h => Bool.noConfusion h⟩
  simp only [delete_character_mugen, if_neg hg]
  refine ⟨by trivial, by trivial, ?_⟩
  exact getD_mem_of_lt (by omega)

/-- Claim C9, witness at a concrete state. -/
theorem mugen_delete_preserves_select_def_witness :
    (delete_character_mugen ⟨["[Characters]\n", "kfm\n"], ["kfm"]⟩ 1 true).selectDef =
        (⟨["[Characters]\n", "kfm\n"], ["kfm"]⟩ : MugenState).selectDef ∧
      (delete_character_mugen ⟨["[Characters]\n", "kfm\n"], ["kfm"]⟩ 1 true).folders =
        (⟨["[Characters]\n", "kfm\n"], ["kfm"]⟩ : MugenState).folders.erase
          ((read_roster_mugen
              (⟨["[Characters]\n", "kfm\n"], ["kfm"]⟩ : MugenState).selectDef).getD 0 "") ∧
      (read_roster_mugen
          (⟨["[Characters]\n", "kfm\n"], ["kfm"]⟩ : MugenState).selectDef).getD 0 "" ∈
        read_roster_mugen
          (delete_character_mugen ⟨["[Characters]\n", "kfm\n"], ["kfm"]⟩ 1 true).selectDef :=
  mugen_delete_preserves_select_def ⟨["[Characters]\n", "kfm\n"], ["kfm"]⟩ 1
    (by decide) (by decide)

/-- Claim C10: `write_roster_ikemen` keeps exactly the original entries whose
backslash-normalized `char` path starts with `chars/` and whose second path
segment is in the keep list; consequently every entry whose path does not
start with `chars/` is dropped from the rewritten `config.json`. -/
theorem ikemen_write_keeps_exactly (cfg : IkemenConfig) (keep : List String)
    (e : IkemenEntry) :
    (e ∈ (write_roster_ikemen cfg keep).characters ↔
        e ∈ cfg.characters ∧ pyStartsWith (normSlash e.char) "chars/" = true ∧
          String.mk ((splitOnChar '/' (normSlash e.char).data).getD 1 []) ∈ keep) ∧
      (pyStartsWith (normSlash e.char) "chars/" = false →
        e ∉ (write_roster_ikemen cfg keep).characters) := by
  have hmem : e ∈ (write_roster_ikemen cfg keep).characters ↔
      e ∈ cfg.characters ∧ keepEntry keep e = true := List.mem_filter
  constructor
  · rw [hmem, keepEntry_iff]
  · intro hns hmem2
    rcases hmem.mp hmem2 with ⟨h1, h2⟩
    rcases (keepEntry_iff keep e).mp h2 with ⟨h3, h4⟩
    rw [hns] at h3
    exact Bool.noConfusion h3

/-- Claim C10, witness: a `chars/` entry in the keep list is kept, a
non-`chars/` entry is dropped. -/
theorem ikemen_write_keeps_exactly_witness :
    (⟨"chars/Ryu/ryu.def"⟩ : IkemenEntry) ∈
        (write_roster_ikemen ⟨[⟨"chars/Ryu/ryu.def"⟩, ⟨"stages/x.def"⟩]⟩
          ["Ryu"]).characters ∧
      (⟨"stages/x.def"⟩ : IkemenEntry) ∉
        (write_roster_ikemen ⟨[⟨"chars/Ryu/ryu.def"⟩, ⟨"stages/x.def"⟩]⟩
          ["Ryu"]).characters :=
  ⟨(ikemen_write_keeps_exactly ⟨[⟨"chars/Ryu/ryu.def"⟩, ⟨"stages/x.def"⟩]⟩ ["Ryu"]
        ⟨"chars/Ryu/ryu.def"⟩).1.mpr ⟨by decide, by decide, by decide⟩,
   (ikemen_write_keeps_exactly ⟨[⟨"chars/Ryu/ryu.def"⟩, ⟨"stages/x.def"⟩]⟩ ["Ryu"]
        ⟨"stages/x.def"⟩).2 (by decide)⟩

end MugenInstaller
